import Mathlib

/-!
Shallow embedding of the SSD training driver (train.py) and proofs of the
spec claims about it.

The file embeds, from the source:
  - the command-line options and their argparse defaults (lines 20-35);
  - the module-level constants (lines 42-52);
  - the weight-initialization traversal over the extra / localization /
    confidence heads (lines 68-81);
  - the optimizer and multi-box-loss construction sites (lines 83-85);
  - the learning-rate schedule (lines 171-178);
  - the training loop (lines 88-168) as a step function on an explicit
    state, with the externally observable effects (batch-iterator creation,
    learning-rate changes, visdom logging points, checkpoint writes) logged
    into an event trace, and the fatal Python faults (ZeroDivisionError on
    `iteration % epoch_size` with epoch_size = 0, StopIteration on an
    exhausted batch iterator) modeled as `Except` errors.

External collaborators are modeled by their contracts: the criterion's two
loss values per iteration are an opaque input `losses : Nat -> Rat x Rat`
(float arithmetic is idealized as rational arithmetic), and the DataLoader
over a dataset of `n` items with batch size `b` and its default
`drop_last = False` yields `ceil(n / b)` batches per epoch.
-/

namespace SSDTrain

/-- Command-line options of train.py (lines 20-35). -/
structure Args where
  version : String
  basenet : String
  jaccard_threshold : ℚ
  batch_size : Nat
  num_workers : Nat
  iterations : Nat
  cuda : Bool
  lr : ℚ
  momentum : ℚ
  weight_decay : ℚ
  gamma : ℚ
  log_iters : Bool
  visdom : Bool
  save_folder : String

/-- The argparse defaults of train.py (lines 21-34). -/
def defaultArgs : Args where
  version := "v2"
  basenet := "vgg16_reducedfc.pth"
  jaccard_threshold := 1/2
  batch_size := 1
  num_workers := 4
  iterations := 120000
  cuda := false
  lr := 1/1000
  momentum := 9/10
  weight_decay := 1/2000
  gamma := 1/10
  log_iters := true
  visdom := true
  save_folder := "weights/"

/-- train.py line 44. -/
def num_classes : Nat := 21

/-- train.py line 48: the loop bound, a hard-coded module constant. -/
def max_iter : Nat := 120000

/-- train.py line 50. -/
def stepvalues : List Nat := [80000, 100000, 120000]

/-- train.py line 99: `epoch_size = len(dataset) // args.batch_size`
(Python integer floor division). -/
def epoch_size (n b : Nat) : Nat := n / b

/-- Number of batches yielded per epoch by the external
`torch.utils.data.DataLoader` (train.py line 119) over a dataset of `n`
items with batch size `b`: with its default `drop_last = False` it yields
`ceil(n / b)` batches. -/
def numBatches (n b : Nat) : Nat := (n + b - 1) / b

/-- One optimizer parameter group; only its learning rate is relevant to
this driver (the SGD update itself is an external black box). -/
structure ParamGroup where
  lr : ℚ
deriving DecidableEq

/-- The SGD optimizer state visible to this driver: its parameter groups
(train.py lines 83-84 build it with a single group over net.parameters()). -/
structure Optimizer where
  param_groups : List ParamGroup
deriving DecidableEq

/-- train.py lines 171-178: `lr = args.lr * (gamma ** step)` and the loop
setting every parameter group's learning rate to `lr`.  The global
`args.lr` read by the source is passed explicitly as `args_lr`. -/
def adjust_learning_rate (args_lr : ℚ) (optimizer : Optimizer) (gamma : ℚ)
    (step : Nat) : Optimizer :=
  let lr := args_lr * gamma ^ step
  { param_groups := optimizer.param_groups.map (fun g => { g with lr := lr }) }

/-- A layer of a head ModuleList: either an `nn.Conv2d` (with its weight and
bias tensors flattened to lists of rationals) or some other module kind. -/
inductive Layer where
  | conv2d (weight bias : List ℚ)
  | other (data : List ℚ)
deriving DecidableEq

/-- train.py lines 68-75: `weights_init` zeroes the bias and fills the
weight of a Conv2d with a fresh Xavier-uniform sample (`init.xavier_uniform`
is an in-place RNG fill; the sample is modeled as the abstract value `draw`
supplied by the RNG), and leaves any module that is not a Conv2d unchanged. -/
def weights_init (draw : List ℚ) : Layer → Layer
  | Layer.conv2d _ b => Layer.conv2d draw (List.replicate b.length 0)
  | Layer.other d => Layer.other d

/-- `ModuleList.apply(weights_init)` (train.py lines 79-81): applies
`weights_init` to every layer of the list, consuming one fresh RNG draw per
layer; `off` is the index of the next unused draw. -/
def applyInit (draws : Nat → List ℚ) (off : Nat) : List Layer → List Layer
  | [] => []
  | m :: ms => weights_init (draws off) m :: applyInit draws (off + 1) ms

/-- The three newly added heads of the network whose layers train.py
initializes (the base network's weights are loaded from a file instead). -/
structure SSDHeads where
  extras : List Layer
  loc : List Layer
  conf : List Layer

/-- train.py lines 79-81: `net.extras.apply(weights_init)`,
`net.loc.apply(weights_init)`, `net.conf.apply(weights_init)`, with the
RNG draws numbered consecutively across the three traversals. -/
def initHeads (draws : Nat → List ℚ) (net : SSDHeads) : SSDHeads where
  extras := applyInit draws 0 net.extras
  loc := applyInit draws net.extras.length net.loc
  conf := applyInit draws (net.extras.length + net.loc.length) net.conf

/-- The constructor arguments of the external `MultiBoxLoss`
(positionally: num_classes, overlap_thresh, prior_for_matching, bkg_label,
neg_mining, neg_pos, neg_overlap, encode_target). -/
structure MultiBoxLossArgs where
  num_classes : Nat
  overlap_thresh : ℚ
  prior_for_matching : Bool
  bkg_label : Nat
  neg_mining : Bool
  neg_pos : Nat
  neg_overlap : ℚ
  encode_target : Bool
deriving DecidableEq

/-- train.py line 85: `criterion = MultiBoxLoss(num_classes, 0.5, True, 0,
True, 3, 0.5, False)` — the single construction site of the loss function.
All arguments are literals (plus the module constant `num_classes = 21`);
the parsed options are in scope but none is read, which is what the unused
`_args` parameter records. -/
def criterionArgs (_args : Args) : MultiBoxLossArgs where
  num_classes := num_classes
  overlap_thresh := 1/2
  prior_for_matching := true
  bkg_label := 0
  neg_mining := true
  neg_pos := 3
  neg_overlap := 1/2
  encode_target := false

/-- The externally observable effects of the training loop. -/
inductive Event where
  | newIterator (iter : Nat)
  | lrChange (iter stepIndex : Nat) (newLr : ℚ)
  | visdomPoint (iter epoch : Nat) (series : List ℚ)
  | checkpoint (iter : Nat) (path : String)
  | finalSave (path : String)
deriving DecidableEq

/-- The fatal faults the loop itself can raise: Python's ZeroDivisionError
from `iteration % epoch_size` when `epoch_size = 0` (train.py line 117),
and StopIteration from `next(batch_iterator)` on an exhausted iterator
(train.py line 143). -/
inductive Fault where
  | zeroDivision
  | iteratorExhausted
deriving DecidableEq

/-- The mutable state of `train()` (train.py lines 88-168): the epoch and
cumulative loss counters, the epoch and LR-step counters, the optimizer,
the number of batches left in the current batch iterator, and the trace of
emitted events. -/
structure TrainState where
  loc_loss : ℚ
  conf_loss : ℚ
  cum_loc_loss : ℚ
  cum_conf_loss : ℚ
  epoch : Nat
  step_index : Nat
  optimizer : Optimizer
  remaining : Nat
  events : List Event

/-- The epoch-boundary block of the loop body (train.py lines 117-140), in
source order: recreate the batch iterator, decay the learning rate if the
iteration is a milestone, roll the epoch loss counters into the cumulative
counters, bump the epoch counter, emit the 6-series visdom point if
enabled, and finally reset the epoch loss counters. -/
def epochBoundary (args : Args) (n : Nat) (i : Nat) (s : TrainState) :
    TrainState :=
  let s1 : TrainState :=
    { s with remaining := numBatches n args.batch_size
             events := s.events ++ [Event.newIterator i] }
  let s2 : TrainState :=
    if i ∈ stepvalues then
      { s1 with step_index := s1.step_index + 1
                optimizer :=
                  adjust_learning_rate args.lr s1.optimizer args.gamma
                    (s1.step_index + 1)
                events := s1.events ++
                  [Event.lrChange i (s1.step_index + 1)
                    (args.lr * args.gamma ^ (s1.step_index + 1))] }
    else s1
  let s3 : TrainState :=
    { s2 with cum_loc_loss := s2.cum_loc_loss + s2.loc_loss
              cum_conf_loss := s2.cum_conf_loss + s2.conf_loss
              epoch := s2.epoch + 1 }
  let s4 : TrainState :=
    if args.visdom = true then
      { s3 with events := s3.events ++
          [Event.visdomPoint i s3.epoch
            [s3.loc_loss, s3.conf_loss, s3.loc_loss + s3.conf_loss,
             s3.cum_loc_loss, s3.cum_conf_loss,
             s3.cum_loc_loss + s3.cum_conf_loss]] }
    else s3
  { s4 with loc_loss := 0, conf_loss := 0 }

/-- The per-batch part of the loop body (train.py lines 143-167): pull the
next batch (StopIteration if the iterator is exhausted), run
forward/backward/step (external; its two loss values for iteration `i` are
the opaque input `losses i`), accumulate the epoch loss counters, and write
a parameter checkpoint every 5000th iteration under the literal directory
prefix used by line 166. -/
def batchStep (losses : Nat → ℚ × ℚ) (i : Nat) (s : TrainState) :
    Except Fault TrainState :=
  if s.remaining = 0 then Except.error Fault.iteratorExhausted
  else
    let s1 : TrainState :=
      { s with remaining := s.remaining - 1
               loc_loss := s.loc_loss + (losses i).1
               conf_loss := s.conf_loss + (losses i).2 }
    let s2 : TrainState :=
      if i % 5000 = 0 then
        { s1 with events := s1.events ++
            [Event.checkpoint i
              ("weights/ssd_iter_new" ++ toString i ++ ".pth")] }
      else s1
    Except.ok s2

/-- One full iteration of the training loop (train.py lines 116-167) for
iteration index `i`, over a dataset of `n` items.  `iteration % epoch_size`
raises ZeroDivisionError when `epoch_size = 0` (empty dataset, or batch
size larger than the dataset, or batch size 0). -/
def trainStep (args : Args) (n : Nat) (losses : Nat → ℚ × ℚ) (i : Nat)
    (s : TrainState) : Except Fault TrainState :=
  if epoch_size n args.batch_size = 0 then Except.error Fault.zeroDivision
  else
    let s' := if i % epoch_size n args.batch_size = 0 then
        epochBoundary args n i s
      else s
    batchStep losses i s'

/-- The state at entry to the loop (train.py lines 91-101 and 83-84): all
loss counters, the epoch counter and step_index start at zero; the
optimizer has one parameter group at the configured learning rate; no batch
iterator exists yet. -/
def initState (args : Args) : TrainState where
  loc_loss := 0
  conf_loss := 0
  cum_loc_loss := 0
  cum_conf_loss := 0
  epoch := 0
  step_index := 0
  optimizer := { param_groups := [{ lr := args.lr }] }
  remaining := 0
  events := []

/-- The first `k` iterations of the training loop, stopping at the first
fault. -/
def runIter (args : Args) (n : Nat) (losses : Nat → ℚ × ℚ) :
    Nat → Except Fault TrainState
  | 0 => Except.ok (initState args)
  | k + 1 => (runIter args n losses k).bind (trainStep args n losses k)

/-- train.py line 168: the final full-model save path,
`args.save_folder + '' + args.version + '.pth'`. -/
def finalPath (args : Args) : String :=
  args.save_folder ++ "" ++ args.version ++ ".pth"

/-- `train()` (train.py lines 88-168): run all `max_iter` loop iterations,
then write the single final full-model checkpoint. -/
def train (args : Args) (n : Nat) (losses : Nat → ℚ × ℚ) :
    Except Fault TrainState :=
  (runIter args n losses max_iter).map
    (fun s => { s with events := s.events ++ [Event.finalSave (finalPath args)] })

/-- The events of a run outcome (empty if the run faulted). -/
def eventsOf : Except Fault TrainState → List Event
  | Except.ok s => s.events
  | Except.error _ => []

/-- The event trace of a training run (empty if the run faults). -/
def trainEvents (args : Args) (n : Nat) (losses : Nat → ℚ × ℚ) :
    List Event :=
  eventsOf (train args n losses)

/-- The all-zero loss input, used to instantiate theorems at concrete
runs. -/
def zeroLosses : Nat → ℚ × ℚ := fun _ => (0, 0)

/-! ## Closed forms for the loop state after `k` iterations -/

/-- The iteration at which the batch iterator current before iteration `k`
was created: the largest multiple of the epoch size `E` that is `< k`
(and `0` for `k = 0`, before any iterator exists). -/
def lastBoundary (E : Nat) : Nat → Nat
  | 0 => 0
  | j + 1 => E * (j / E)

/-- Sum of a per-iteration quantity over the epoch in progress at the start
of iteration `k` (the value of an epoch loss counter at that point). -/
def epochSum (E : Nat) (f : Nat → ℚ) (k : Nat) : ℚ :=
  ∑ j ∈ Finset.Ico (lastBoundary E k) k, f j

/-- Sum of a per-iteration quantity over all epochs completed before the
last boundary (the value of a cumulative loss counter at the start of
iteration `k`). -/
def cumSum (E : Nat) (f : Nat → ℚ) (k : Nat) : ℚ :=
  ∑ j ∈ Finset.range (lastBoundary E k), f j

/-- The `epoch` counter at the start of iteration `k`: the number of epoch
boundaries among iterations `0, ..., k-1`. -/
def epochAt (E : Nat) : Nat → Nat
  | 0 => 0
  | j + 1 => j / E + 1

/-- The `step_index` counter at the start of iteration `k`: the number of
decay milestones among iterations `0, ..., k-1` that fell on an epoch
boundary. -/
def stepIndexAt (E k : Nat) : Nat :=
  (if 80000 < k ∧ 80000 % E = 0 then 1 else 0)
  + (if 100000 < k ∧ 100000 % E = 0 then 1 else 0)
  + (if 120000 < k ∧ 120000 % E = 0 then 1 else 0)

/-- Batches left in the current iterator at the start of iteration `k`. -/
def remainingAt (n b : Nat) : Nat → Nat
  | 0 => 0
  | j + 1 => numBatches n b - 1 - j % epoch_size n b

/-- The localization component of the per-iteration loss input. -/
def lossL (losses : Nat → ℚ × ℚ) : Nat → ℚ := fun j => (losses j).1

/-- The confidence component of the per-iteration loss input. -/
def lossC (losses : Nat → ℚ × ℚ) : Nat → ℚ := fun j => (losses j).2

/-- The events emitted by the epoch-boundary block at a boundary iteration
`i`, in emission order. -/
def boundaryEvents (args : Args) (n : Nat) (losses : Nat → ℚ × ℚ)
    (i : Nat) : List Event :=
  let E := epoch_size n args.batch_size
  let A := epochSum E (lossL losses) i
  let B := epochSum E (lossC losses) i
  let CL := cumSum E (lossL losses) i + A
  let CC := cumSum E (lossC losses) i + B
  [Event.newIterator i]
  ++ (if i ∈ stepvalues then
        [Event.lrChange i (stepIndexAt E i + 1)
          (args.lr * args.gamma ^ (stepIndexAt E i + 1))]
      else [])
  ++ (if args.visdom = true then
        [Event.visdomPoint i (epochAt E i + 1)
          [A, B, A + B, CL, CC, CL + CC]]
      else [])

/-- All events emitted during iteration `i` of the loop, in emission
order. -/
def iterEvents (args : Args) (n : Nat) (losses : Nat → ℚ × ℚ)
    (i : Nat) : List Event :=
  (if i % epoch_size n args.batch_size = 0 then
     boundaryEvents args n losses i
   else [])
  ++ (if i % 5000 = 0 then
        [Event.checkpoint i ("weights/ssd_iter_new" ++ toString i ++ ".pth")]
      else [])

/-- Concatenation of the per-iteration event lists of iterations
`0, ..., k-1`. -/
def traceUpTo (f : Nat → List Event) : Nat → List Event
  | 0 => []
  | k + 1 => traceUpTo f k ++ f k

/-! ## Arithmetic helper lemmas -/

theorem succ_mod_of_not_dvd {E k : Nat} (h : ¬ E ∣ (k + 1)) :
    (k + 1) % E = k % E + 1 := by
  rcases E with _ | _ | E
  · simp
  · exact absurd (one_dvd _) h
  · have h1 : (k + 1) % (E + 2) = (k % (E + 2) + 1) % (E + 2) := by
      rw [Nat.add_mod, Nat.mod_eq_of_lt (show 1 < E + 2 by omega)]
    have hlt : k % (E + 2) < E + 2 := Nat.mod_lt _ (by omega)
    rcases Nat.lt_or_ge (k % (E + 2) + 1) (E + 2) with hc | hc
    · rw [h1, Nat.mod_eq_of_lt hc]
    · have hEq : k % (E + 2) + 1 = E + 2 := by omega
      exact absurd
        (Nat.dvd_of_mod_eq_zero (by rw [h1, hEq, Nat.mod_self])) h

theorem lastBoundary_le (E k : Nat) : lastBoundary E k ≤ k := by
  cases k with
  | zero => exact Nat.le_refl 0
  | succ j =>
    have : E * (j / E) ≤ j := by
      rw [Nat.mul_comm]; exact Nat.div_mul_le_self j E
    simpa [lastBoundary] using Nat.le_succ_of_le this

theorem lastBoundary_succ_of_mod_eq_zero {E k : Nat} (hE : 0 < E)
    (hk : k % E = 0) : lastBoundary E (k + 1) = k := by
  simp only [lastBoundary]
  exact Nat.mul_div_cancel' (Nat.dvd_of_mod_eq_zero hk)

theorem lastBoundary_succ_of_mod_ne_zero {E k : Nat}
    (hk : ¬ k % E = 0) : lastBoundary E (k + 1) = lastBoundary E k := by
  rcases k with _ | j
  · simp at hk
  · simp only [lastBoundary]
    rw [Nat.succ_div, if_neg (fun hd => hk (Nat.mod_eq_zero_of_dvd hd))]
    simp

theorem epochSum_succ_boundary {E k : Nat} (hE : 0 < E) (hk : k % E = 0)
    (f : Nat → ℚ) : epochSum E f (k + 1) = f k := by
  simp only [epochSum, lastBoundary_succ_of_mod_eq_zero hE hk]
  rw [Finset.sum_Ico_succ_top (Nat.le_refl k)]
  simp

theorem epochSum_succ_nonboundary {E k : Nat} (hk : ¬ k % E = 0)
    (f : Nat → ℚ) : epochSum E f (k + 1) = epochSum E f k + f k := by
  simp only [epochSum, lastBoundary_succ_of_mod_ne_zero hk]
  rw [Finset.sum_Ico_succ_top (lastBoundary_le E k)]

theorem cumSum_boundary_add_epochSum {E k : Nat} (hE : 0 < E)
    (hk : k % E = 0) (f : Nat → ℚ) :
    cumSum E f k + epochSum E f k = ∑ j ∈ Finset.range k, f j := by
  simp only [cumSum, epochSum]
  exact Finset.sum_range_add_sum_Ico f (lastBoundary_le E k)

theorem cumSum_succ_boundary {E k : Nat} (hE : 0 < E) (hk : k % E = 0)
    (f : Nat → ℚ) :
    cumSum E f (k + 1) = cumSum E f k + epochSum E f k := by
  rw [cumSum_boundary_add_epochSum hE hk]
  simp only [cumSum, lastBoundary_succ_of_mod_eq_zero hE hk]

theorem cumSum_succ_nonboundary {E k : Nat} (hk : ¬ k % E = 0)
    (f : Nat → ℚ) : cumSum E f (k + 1) = cumSum E f k := by
  simp only [cumSum, lastBoundary_succ_of_mod_ne_zero hk]

theorem epochAt_succ_boundary {E k : Nat} (hE : 0 < E) (hk : k % E = 0) :
    epochAt E (k + 1) = epochAt E k + 1 := by
  rcases k with _ | j
  · simp [epochAt, Nat.zero_div]
  · simp only [epochAt]
    rw [Nat.succ_div, if_pos (Nat.dvd_of_mod_eq_zero hk)]

theorem epochAt_succ_nonboundary {E k : Nat} (hk : ¬ k % E = 0) :
    epochAt E (k + 1) = epochAt E k := by
  rcases k with _ | j
  · simp at hk
  · simp only [epochAt]
    rw [Nat.succ_div, if_neg (fun hd => hk (Nat.mod_eq_zero_of_dvd hd))]

theorem stepIndexAt_succ (E k : Nat) :
    stepIndexAt E (k + 1) =
      stepIndexAt E k + (if k ∈ stepvalues ∧ k % E = 0 then 1 else 0) := by
  by_cases h8 : k = 80000
  · subst h8
    by_cases hm : 80000 % E = 0 <;>
      simp [stepIndexAt, stepvalues, hm]
  · by_cases h10 : k = 100000
    · subst h10
      by_cases hm : 100000 % E = 0 <;>
        simp [stepIndexAt, stepvalues, hm]
    · by_cases h12 : k = 120000
      · subst h12
        by_cases hm : 120000 % E = 0 <;>
          simp [stepIndexAt, stepvalues, hm]
      · have hmem : ¬ (k ∈ stepvalues ∧ k % E = 0) := by
          simp only [stepvalues, List.mem_cons, List.mem_singleton]
          rintro ⟨h | h | h, -⟩ <;> simp_all
        rw [if_neg hmem]
        have e8 : (80000 < k + 1) = (80000 < k) := by
          apply propext; omega
        have e10 : (100000 < k + 1) = (100000 < k) := by
          apply propext; omega
        have e12 : (120000 < k + 1) = (120000 < k) := by
          apply propext; omega
        simp only [stepIndexAt, e8, e10, e12, Nat.add_zero]

theorem remainingAt_succ_boundary {n b k : Nat} (hk : k % epoch_size n b = 0) :
    remainingAt n b (k + 1) = numBatches n b - 1 := by
  simp [remainingAt, hk]

theorem remainingAt_succ_nonboundary {n b k : Nat}
    (hk : ¬ (k + 1) % epoch_size n b = 0) :
    remainingAt n b (k + 2) = numBatches n b - 1 - ((k + 1) % epoch_size n b) := by
  simp [remainingAt]

theorem epoch_size_le_numBatches {n b : Nat} (hb : 1 ≤ b) :
    epoch_size n b ≤ numBatches n b := by
  unfold epoch_size numBatches
  exact Nat.div_le_div_right (by omega)

theorem numBatches_pos {n b : Nat} (hb : 1 ≤ b) (hbn : b ≤ n) :
    0 < numBatches n b := by
  unfold numBatches
  exact Nat.div_pos (by omega) (by omega)

theorem remainingAt_pos_of_mod_ne_zero {n b k : Nat} (hb : 1 ≤ b)
    (hbn : b ≤ n) (hk : ¬ k % epoch_size n b = 0) :
    0 < remainingAt n b k := by
  rcases k with _ | j
  · simp at hk
  · have hE : 0 < epoch_size n b := Nat.div_pos hbn hb
    have hEB := epoch_size_le_numBatches (n := n) hb
    have hmod : (j + 1) % epoch_size n b = j % epoch_size n b + 1 :=
      succ_mod_of_not_dvd (fun hd => hk (Nat.mod_eq_zero_of_dvd hd))
    have hlt : (j + 1) % epoch_size n b < epoch_size n b :=
      Nat.mod_lt _ hE
    rw [hmod] at hlt
    simp only [remainingAt]
    revert hlt hEB hE
    generalize j % epoch_size n b = x
    generalize epoch_size n b = e
    generalize numBatches n b = B
    omega

/-- The state of the training loop at the start of iteration `k`, in closed
form. -/
def closedState (args : Args) (n : Nat) (losses : Nat → ℚ × ℚ)
    (k : Nat) : TrainState where
  loc_loss := epochSum (epoch_size n args.batch_size) (lossL losses) k
  conf_loss := epochSum (epoch_size n args.batch_size) (lossC losses) k
  cum_loc_loss := cumSum (epoch_size n args.batch_size) (lossL losses) k
  cum_conf_loss := cumSum (epoch_size n args.batch_size) (lossC losses) k
  epoch := epochAt (epoch_size n args.batch_size) k
  step_index := stepIndexAt (epoch_size n args.batch_size) k
  optimizer := { param_groups :=
    [{ lr := args.lr *
        args.gamma ^ stepIndexAt (epoch_size n args.batch_size) k }] }
  remaining := remainingAt n args.batch_size k
  events := traceUpTo (iterEvents args n losses) k

theorem closedState_zero (args : Args) (n : Nat) (losses : Nat → ℚ × ℚ) :
    closedState args n losses 0 = initState args := by
  simp [closedState, initState, epochSum, cumSum, epochAt, stepIndexAt,
    remainingAt, traceUpTo, lastBoundary]

theorem epochBoundary_closed (args : Args) (n : Nat)
    (losses : Nat → ℚ × ℚ) (k : Nat)
    (hE : 0 < epoch_size n args.batch_size)
    (hk : k % epoch_size n args.batch_size = 0) :
    epochBoundary args n k (closedState args n losses k) =
      { loc_loss := 0
        conf_loss := 0
        cum_loc_loss :=
          cumSum (epoch_size n args.batch_size) (lossL losses) (k + 1)
        cum_conf_loss :=
          cumSum (epoch_size n args.batch_size) (lossC losses) (k + 1)
        epoch := epochAt (epoch_size n args.batch_size) (k + 1)
        step_index := stepIndexAt (epoch_size n args.batch_size) (k + 1)
        optimizer := { param_groups :=
          [{ lr := args.lr * args.gamma ^
              stepIndexAt (epoch_size n args.batch_size) (k + 1) }] }
        remaining := numBatches n args.batch_size
        events := traceUpTo (iterEvents args n losses) k ++
          boundaryEvents args n losses k } := by
  have c1 := cumSum_succ_boundary hE hk (lossL losses)
  have c2 := cumSum_succ_boundary hE hk (lossC losses)
  have ea := epochAt_succ_boundary hE hk
  have si := stepIndexAt_succ (epoch_size n args.batch_size) k
  by_cases hsv : k ∈ stepvalues <;> by_cases hvis : args.visdom = true <;>
    simp [epochBoundary, closedState, boundaryEvents, adjust_learning_rate,
      hsv, hvis, hk, c1, c2, ea, si, List.append_assoc]

theorem trainStep_closed (args : Args) (n : Nat) (losses : Nat → ℚ × ℚ)
    (hb : 1 ≤ args.batch_size) (hbn : args.batch_size ≤ n) (k : Nat) :
    trainStep args n losses k (closedState args n losses k) =
      Except.ok (closedState args n losses (k + 1)) := by
  have hE : 0 < epoch_size n args.batch_size := Nat.div_pos hbn hb
  have hB := numBatches_pos hb hbn
  by_cases hk : k % epoch_size n args.batch_size = 0
  · have e1 := epochSum_succ_boundary hE hk (lossL losses)
    have e2 := epochSum_succ_boundary hE hk (lossC losses)
    have hrem := remainingAt_succ_boundary (n := n) (b := args.batch_size) hk
    rw [trainStep, if_neg (Nat.pos_iff_ne_zero.mp hE), if_pos hk,
      epochBoundary_closed args n losses k hE hk]
    by_cases hck : k % 5000 = 0 <;>
      simp [batchStep, closedState, iterEvents, boundaryEvents, traceUpTo,
        Nat.pos_iff_ne_zero.mp hB, hk, hck, e1, e2, hrem, lossL, lossC,
        List.append_assoc]
  · have e1 := epochSum_succ_nonboundary hk (lossL losses)
    have e2 := epochSum_succ_nonboundary hk (lossC losses)
    have c1 := cumSum_succ_nonboundary hk (lossL losses)
    have c2 := cumSum_succ_nonboundary hk (lossC losses)
    have ea := epochAt_succ_nonboundary hk
    have si := stepIndexAt_succ (epoch_size n args.batch_size) k
    have hnsv : ¬ (k ∈ stepvalues ∧ k % epoch_size n args.batch_size = 0) :=
      fun h => hk h.2
    rw [if_neg hnsv] at si
    have hrpos := remainingAt_pos_of_mod_ne_zero hb hbn hk
    have hreq : remainingAt n args.batch_size k - 1 =
        remainingAt n args.batch_size (k + 1) := by
      rcases k with _ | j
      · simp at hk
      · have hmod : (j + 1) % epoch_size n args.batch_size =
            j % epoch_size n args.batch_size + 1 :=
          succ_mod_of_not_dvd (fun hd => hk (Nat.mod_eq_zero_of_dvd hd))
        simp only [remainingAt, hmod]
        omega
    rw [trainStep, if_neg (Nat.pos_iff_ne_zero.mp hE), if_neg hk]
    by_cases hck : k % 5000 = 0 <;>
      simp [batchStep, closedState, iterEvents, traceUpTo, hk, hck,
        Nat.pos_iff_ne_zero.mp hrpos, e1, e2, c1, c2, ea, si, hreq,
        lossL, lossC, List.append_assoc]

/-- The invariant of the training loop: after `k` fault-free iterations the
state is `closedState k`; with a batch size between 1 and the dataset size
no fault occurs. -/
theorem runIter_ok (args : Args) (n : Nat) (losses : Nat → ℚ × ℚ)
    (hb : 1 ≤ args.batch_size) (hbn : args.batch_size ≤ n) (k : Nat) :
    runIter args n losses k = Except.ok (closedState args n losses k) := by
  induction k with
  | zero => rw [closedState_zero]; rfl
  | succ k ih =>
    show (runIter args n losses k).bind (trainStep args n losses k) = _
    rw [ih]
    show trainStep args n losses k (closedState args n losses k) = _
    exact trainStep_closed args n losses hb hbn k

/-! ## The event trace of a full run -/

theorem mem_traceUpTo {f : Nat → List Event} {e : Event} {k : Nat} :
    e ∈ traceUpTo f k ↔ ∃ j, j < k ∧ e ∈ f j := by
  induction k with
  | zero => simp [traceUpTo]
  | succ k ih =>
    simp only [traceUpTo, List.mem_append, ih]
    constructor
    · rintro (⟨j, hj, hm⟩ | hm)
      · exact ⟨j, by omega, hm⟩
      · exact ⟨k, by omega, hm⟩
    · rintro ⟨j, hj, hm⟩
      rcases Nat.lt_succ_iff_lt_or_eq.mp hj with h | h
      · exact Or.inl ⟨j, h, hm⟩
      · exact Or.inr (h ▸ hm)

theorem eventsOf_ok (s : TrainState) : eventsOf (Except.ok s) = s.events :=
  rfl

theorem map_ok (f : TrainState → TrainState) (s : TrainState) :
    Except.map (ε := Fault) f (Except.ok s) = Except.ok (f s) := rfl

theorem events_update (s : TrainState) (l : List Event) :
    ({ s with events := l } : TrainState).events = l := rfl

theorem closedState_events (args : Args) (n : Nat) (losses : Nat → ℚ × ℚ)
    (k : Nat) :
    (closedState args n losses k).events =
      traceUpTo (iterEvents args n losses) k := rfl

theorem trainEvents_eq (args : Args) (n : Nat) (losses : Nat → ℚ × ℚ)
    (hb : 1 ≤ args.batch_size) (hbn : args.batch_size ≤ n) :
    trainEvents args n losses =
      traceUpTo (iterEvents args n losses) max_iter ++
        [Event.finalSave (finalPath args)] := by
  show eventsOf (train args n losses) = _
  unfold train
  rw [runIter_ok args n losses hb hbn max_iter, map_ok, eventsOf_ok]
  show ({ closedState args n losses max_iter with
      events := (closedState args n losses max_iter).events ++
        [Event.finalSave (finalPath args)] } : TrainState).events = _
  rw [events_update, closedState_events]

theorem newIterator_mem_iterEvents {args : Args} {n : Nat}
    {losses : Nat → ℚ × ℚ} {i j : Nat} :
    Event.newIterator i ∈ iterEvents args n losses j ↔
      i = j ∧ j % epoch_size n args.batch_size = 0 := by
  simp only [iterEvents, boundaryEvents]
  split_ifs with h1 h2 h3 h4 <;> simp_all

theorem lrChange_mem_iterEvents {args : Args} {n : Nat}
    {losses : Nat → ℚ × ℚ} {i si j : Nat} {lr : ℚ} :
    Event.lrChange i si lr ∈ iterEvents args n losses j ↔
      i = j ∧ j % epoch_size n args.batch_size = 0 ∧ j ∈ stepvalues ∧
        si = stepIndexAt (epoch_size n args.batch_size) j + 1 ∧
        lr = args.lr *
          args.gamma ^ (stepIndexAt (epoch_size n args.batch_size) j + 1) := by
  simp only [iterEvents, boundaryEvents]
  split_ifs with h1 h2 h3 h4 <;> simp_all

theorem visdomPoint_mem_iterEvents {args : Args} {n : Nat}
    {losses : Nat → ℚ × ℚ} {i ep j : Nat} {l : List ℚ} :
    Event.visdomPoint i ep l ∈ iterEvents args n losses j ↔
      i = j ∧ j % epoch_size n args.batch_size = 0 ∧ args.visdom = true ∧
        ep = epochAt (epoch_size n args.batch_size) j + 1 ∧
        l = [epochSum (epoch_size n args.batch_size) (lossL losses) j,
             epochSum (epoch_size n args.batch_size) (lossC losses) j,
             epochSum (epoch_size n args.batch_size) (lossL losses) j +
               epochSum (epoch_size n args.batch_size) (lossC losses) j,
             cumSum (epoch_size n args.batch_size) (lossL losses) j +
               epochSum (epoch_size n args.batch_size) (lossL losses) j,
             cumSum (epoch_size n args.batch_size) (lossC losses) j +
               epochSum (epoch_size n args.batch_size) (lossC losses) j,
             cumSum (epoch_size n args.batch_size) (lossL losses) j +
               epochSum (epoch_size n args.batch_size) (lossL losses) j +
               (cumSum (epoch_size n args.batch_size) (lossC losses) j +
                 epochSum (epoch_size n args.batch_size) (lossC losses) j)] := by
  simp only [iterEvents, boundaryEvents]
  split_ifs with h1 h2 h3 h4 <;> simp_all

theorem checkpoint_mem_iterEvents {args : Args} {n : Nat}
    {losses : Nat → ℚ × ℚ} {i j : Nat} {p : String} :
    Event.checkpoint i p ∈ iterEvents args n losses j ↔
      i = j ∧ j % 5000 = 0 ∧
        p = "weights/ssd_iter_new" ++ toString j ++ ".pth" := by
  simp only [iterEvents, boundaryEvents]
  split_ifs with h1 h2 h3 h4 <;> simp_all

theorem finalSave_not_mem_iterEvents {args : Args} {n : Nat}
    {losses : Nat → ℚ × ℚ} {j : Nat} {p : String} :
    Event.finalSave p ∉ iterEvents args n losses j := by
  simp only [iterEvents, boundaryEvents]
  split_ifs with h1 h2 h3 h4 <;> simp_all

theorem mem_trainEvents {args : Args} {n : Nat} {losses : Nat → ℚ × ℚ}
    {e : Event} (hb : 1 ≤ args.batch_size) (hbn : args.batch_size ≤ n) :
    e ∈ trainEvents args n losses ↔
      (∃ j, j < max_iter ∧ e ∈ iterEvents args n losses j) ∨
        e = Event.finalSave (finalPath args) := by
  rw [trainEvents_eq args n losses hb hbn]
  simp [mem_traceUpTo]

/-- Recognizes a visdom logging point for iteration `i`. -/
def isVisdomAt (i : Nat) : Event → Bool
  | Event.visdomPoint j _ _ => j == i
  | _ => false

/-- Recognizes the final full-model checkpoint event. -/
def isFinalSave : Event → Bool
  | Event.finalSave _ => true
  | _ => false

theorem countP_traceUpTo (f : Nat → List Event) (p : Event → Bool)
    (k : Nat) :
    (traceUpTo f k).countP p = ∑ j ∈ Finset.range k, (f j).countP p := by
  induction k with
  | zero => simp [traceUpTo]
  | succ k ih =>
    simp [traceUpTo, List.countP_append, ih, Finset.sum_range_succ]

theorem countP_isFinalSave_iterEvents {args : Args} {n : Nat}
    {losses : Nat → ℚ × ℚ} {j : Nat} :
    (iterEvents args n losses j).countP isFinalSave = 0 := by
  simp only [iterEvents, boundaryEvents]
  split_ifs <;>
    simp [isFinalSave, List.countP_cons, List.countP_append, List.countP_nil]

theorem countP_isVisdomAt_iterEvents {args : Args} {n : Nat}
    {losses : Nat → ℚ × ℚ} {i j : Nat} :
    (iterEvents args n losses j).countP (isVisdomAt i) =
      if j = i ∧ j % epoch_size n args.batch_size = 0 ∧ args.visdom = true
      then 1 else 0 := by
  by_cases hji : j = i
  · subst hji
    simp only [iterEvents, boundaryEvents]
    split_ifs <;>
      simp_all [isVisdomAt, List.countP_cons, List.countP_append,
        List.countP_nil]
  · simp only [iterEvents, boundaryEvents]
    split_ifs <;>
      simp_all [isVisdomAt, List.countP_cons, List.countP_append,
        List.countP_nil]

theorem countP_isFinalSave_trainEvents (args : Args) (n : Nat)
    (losses : Nat → ℚ × ℚ) (hb : 1 ≤ args.batch_size)
    (hbn : args.batch_size ≤ n) :
    (trainEvents args n losses).countP isFinalSave = 1 := by
  rw [trainEvents_eq args n losses hb hbn, List.countP_append,
    countP_traceUpTo]
  simp [countP_isFinalSave_iterEvents, isFinalSave, List.countP_cons,
    List.countP_nil]

theorem countP_isVisdomAt_trainEvents (args : Args) (n : Nat)
    (losses : Nat → ℚ × ℚ) (i : Nat) (hb : 1 ≤ args.batch_size)
    (hbn : args.batch_size ≤ n) (hi : i < max_iter)
    (hmod : i % epoch_size n args.batch_size = 0)
    (hv : args.visdom = true) :
    (trainEvents args n losses).countP (isVisdomAt i) = 1 := by
  rw [trainEvents_eq args n losses hb hbn, List.countP_append,
    countP_traceUpTo]
  have h1 : ∀ j ∈ Finset.range max_iter,
      (iterEvents args n losses j).countP (isVisdomAt i) =
        if j = i then (fun _ => 1) j else 0 := by
    intro j _
    rw [countP_isVisdomAt_iterEvents]
    by_cases hji : j = i
    · subst hji; simp [hmod, hv]
    · simp [hji]
  rw [Finset.sum_congr rfl h1, Finset.sum_ite_eq' (Finset.range max_iter) i]
  simp [Finset.mem_range, hi, isVisdomAt, List.countP_cons, List.countP_nil]

theorem batch_size_bounds_of_epoch_size_pos {n b : Nat}
    (hE : 1 ≤ epoch_size n b) : 1 ≤ b ∧ b ≤ n := by
  constructor
  · by_contra h
    have hb0 : b = 0 := by omega
    subst hb0
    simp [epoch_size, Nat.div_zero] at hE
  · by_contra h
    have hlt : n < b := by omega
    have : epoch_size n b = 0 := Nat.div_eq_of_lt hlt
    omega

/-! ## The claims -/

/-- C2: for every step index `s`, base learning rate `L` and decay factor
`g`, `adjust_learning_rate` sets the learning rate of every parameter group
of the optimizer to the same value `L * g ^ s`, and it preserves the number
of parameter groups. -/
theorem c2_adjust_learning_rate_sets_every_group (L g : ℚ) (s : Nat)
    (opt : Optimizer) (pg : ParamGroup)
    (hpg : pg ∈ (adjust_learning_rate L opt g s).param_groups) :
    pg.lr = L * g ^ s ∧
      (adjust_learning_rate L opt g s).param_groups.length =
        opt.param_groups.length := by
  constructor
  · simp only [adjust_learning_rate, List.mem_map] at hpg
    obtain ⟨a, -, rfl⟩ := hpg
    rfl
  · simp [adjust_learning_rate]

/-- Witness for C2 at a concrete two-group optimizer with L = 3, g = 2,
s = 2, so the common learning rate is 12. -/
theorem c2_witness :
    (⟨3 * 2 ^ 2⟩ : ParamGroup).lr = 3 * 2 ^ 2 ∧
      (adjust_learning_rate 3 ⟨[⟨5⟩, ⟨7⟩]⟩ 2 2).param_groups.length =
        (⟨[⟨5⟩, ⟨7⟩]⟩ : Optimizer).param_groups.length :=
  c2_adjust_learning_rate_sets_every_group 3 2 2 ⟨[⟨5⟩, ⟨7⟩]⟩ ⟨3 * 2 ^ 2⟩
    (by simp [adjust_learning_rate])

/-- C9: the multi-box loss function is constructed with the fixed argument
tuple (21 classes, matching threshold 1/2, prior-for-matching on,
background label 0, hard-negative mining on at ratio 3, additional
threshold 1/2, class balancing off), identically for all parsed
command-line options. -/
theorem c9_criterion_fixed_args :
    ∀ a1 a2 : Args, criterionArgs a1 = criterionArgs a2 ∧
      criterionArgs a1 =
        { num_classes := 21, overlap_thresh := 1/2,
          prior_for_matching := true, bkg_label := 0, neg_mining := true,
          neg_pos := 3, neg_overlap := 1/2, encode_target := false } :=
  fun _ _ => ⟨rfl, rfl⟩

theorem initState_iterations_irrel (args : Args) (its : Nat) :
    initState { args with iterations := its } = initState args := rfl

theorem trainStep_iterations_irrel (args : Args) (n : Nat)
    (losses : Nat → ℚ × ℚ) (its i : Nat) (s : TrainState) :
    trainStep { args with iterations := its } n losses i s =
      trainStep args n losses i s := rfl

theorem runIter_iterations_irrel (args : Args) (n : Nat)
    (losses : Nat → ℚ × ℚ) (its k : Nat) :
    runIter { args with iterations := its } n losses k =
      runIter args n losses k := by
  induction k with
  | zero => rfl
  | succ k ih =>
    show (runIter { args with iterations := its } n losses k).bind _ = _
    rw [ih]
    rfl

/-- C10: the loop bound is the hard-coded module constant
`max_iter = 120000`; the parsed `--iterations` option is never read after
argument parsing, so a run (hence its 120000-iteration loop and all its
events) is unchanged under any value of that option. -/
theorem c10_iterations_option_has_no_effect (args : Args) (n : Nat)
    (losses : Nat → ℚ × ℚ) (its : Nat) :
    train { args with iterations := its } n losses = train args n losses ∧
      max_iter = 120000 := by
  refine ⟨?_, rfl⟩
  unfold train
  rw [runIter_iterations_irrel]
  rfl

theorem applyInit_get? (draws : Nat → List ℚ) :
    ∀ (ms : List Layer) (off i : Nat),
      (applyInit draws off ms).get? i =
        (ms.get? i).map (weights_init (draws (off + i))) := by
  intro ms
  induction ms with
  | nil => intro off i; simp [applyInit]
  | cons m ms ih =>
    intro off i
    cases i with
    | zero => simp [applyInit]
    | succ i =>
      have harith : off + 1 + i = off + (i + 1) := by omega
      simp only [applyInit, List.get?_cons_succ, ih (off + 1) i, harith]

/-- C7: after the weight-initialization traversal of the extras,
localization and confidence heads, every Conv2d layer has its bias tensor
replaced by all zeros and its weight tensor replaced by the fresh
Xavier-uniform draw for its position (a value of the RNG stream,
independent of the old weight — in particular not copied from any
pre-existing value), while every layer that is not a Conv2d is left
unchanged. -/
theorem c7_weight_initialization (draws : Nat → List ℚ) (net : SSDHeads) :
    (∀ i w b, net.extras.get? i = some (Layer.conv2d w b) →
       (initHeads draws net).extras.get? i =
         some (Layer.conv2d (draws (0 + i)) (List.replicate b.length 0)))
    ∧ (∀ i d, net.extras.get? i = some (Layer.other d) →
       (initHeads draws net).extras.get? i = some (Layer.other d))
    ∧ (∀ i w b, net.loc.get? i = some (Layer.conv2d w b) →
       (initHeads draws net).loc.get? i =
         some (Layer.conv2d (draws (net.extras.length + i))
           (List.replicate b.length 0)))
    ∧ (∀ i d, net.loc.get? i = some (Layer.other d) →
       (initHeads draws net).loc.get? i = some (Layer.other d))
    ∧ (∀ i w b, net.conf.get? i = some (Layer.conv2d w b) →
       (initHeads draws net).conf.get? i =
         some (Layer.conv2d (draws (net.extras.length + net.loc.length + i))
           (List.replicate b.length 0)))
    ∧ (∀ i d, net.conf.get? i = some (Layer.other d) →
       (initHeads draws net).conf.get? i = some (Layer.other d))
    ∧ (∀ draw w1 w2 b, weights_init draw (Layer.conv2d w1 b) =
        weights_init draw (Layer.conv2d w2 b)) := by
  refine ⟨fun i w b h => ?_, fun i d h => ?_, fun i w b h => ?_,
    fun i d h => ?_, fun i w b h => ?_, fun i d h => ?_,
    fun _ _ _ _ => rfl⟩ <;>
    · show (applyInit draws _ _).get? i = _
      rw [applyInit_get?, h]
      rfl

/-- Witness for C7 at a one-conv-plus-one-other net with the constant draw
stream `[7]`. -/
theorem c7_witness :
    (initHeads (fun _ => [7])
        ⟨[Layer.conv2d [1, 2] [3, 4]], [Layer.other [5]], []⟩).extras.get? 0 =
      some (Layer.conv2d [7] [0, 0]) ∧
    (initHeads (fun _ => [7])
        ⟨[Layer.conv2d [1, 2] [3, 4]], [Layer.other [5]], []⟩).loc.get? 0 =
      some (Layer.other [5]) :=
  ⟨(c7_weight_initialization (fun _ => [7])
      ⟨[Layer.conv2d [1, 2] [3, 4]], [Layer.other [5]], []⟩).1 0 [1, 2] [3, 4]
      rfl,
   (c7_weight_initialization (fun _ => [7])
      ⟨[Layer.conv2d [1, 2] [3, 4]], [Layer.other [5]], []⟩).2.2.2.1 0 [5]
      rfl⟩

theorem lastBoundary_mul_succ {E k : Nat} (hE : 0 < E) :
    lastBoundary E (k * E + 1) = k * E := by
  simp only [lastBoundary]
  rw [Nat.mul_div_cancel k hE, Nat.mul_comm]

/-- C4: for every epoch size at least 1 and every iteration `i` of the
training loop, a new (shuffled) batch iterator is created at iteration `i`
if and only if `i` is divisible by the epoch size. -/
theorem c4_new_iterator_iff_epoch_boundary (args : Args) (n : Nat)
    (losses : Nat → ℚ × ℚ) (i : Nat)
    (hE : 1 ≤ epoch_size n args.batch_size) (hi : i < max_iter) :
    Event.newIterator i ∈ trainEvents args n losses ↔
      i % epoch_size n args.batch_size = 0 := by
  obtain ⟨hb, hbn⟩ := batch_size_bounds_of_epoch_size_pos hE
  rw [mem_trainEvents hb hbn]
  constructor
  · rintro (⟨j, hj, hm⟩ | h)
    · rw [newIterator_mem_iterEvents] at hm
      obtain ⟨rfl, hm2⟩ := hm
      exact hm2
    · simp at h
  · intro hmod
    exact Or.inl ⟨i, hi, newIterator_mem_iterEvents.mpr ⟨rfl, hmod⟩⟩

/-- Witness for C4 at a one-item dataset with batch size 1 (epoch size 1)
and iteration 100. -/
theorem c4_witness :
    Event.newIterator 100 ∈ trainEvents defaultArgs 1 zeroLosses ↔
      100 % epoch_size 1 defaultArgs.batch_size = 0 :=
  c4_new_iterator_iff_epoch_boundary defaultArgs 1 zeroLosses 100
    (by decide) (by decide)

/-- C5: a parameter-only checkpoint event occurs at iteration `i` exactly
when `i < 120000` and `i` is divisible by 5000 (including iteration 0), and
its path is the literal `weights/` directory plus a name embedding the
iteration number; after a fault-free loop exactly one final full-model save
event occurs, at the concatenation of the save folder, the version string
and `.pth`. -/
theorem c5_checkpoint_cadence (args : Args) (n : Nat)
    (losses : Nat → ℚ × ℚ) (i : Nat) (p q : String)
    (hE : 1 ≤ epoch_size n args.batch_size) :
    (Event.checkpoint i p ∈ trainEvents args n losses ↔
      i < max_iter ∧ i % 5000 = 0 ∧
        p = "weights/ssd_iter_new" ++ toString i ++ ".pth")
    ∧ (trainEvents args n losses).countP isFinalSave = 1
    ∧ (Event.finalSave q ∈ trainEvents args n losses ↔
        q = finalPath args) := by
  obtain ⟨hb, hbn⟩ := batch_size_bounds_of_epoch_size_pos hE
  refine ⟨?_, countP_isFinalSave_trainEvents args n losses hb hbn, ?_⟩
  · rw [mem_trainEvents hb hbn]
    constructor
    · rintro (⟨j, hj, hm⟩ | h)
      · rw [checkpoint_mem_iterEvents] at hm
        obtain ⟨rfl, h2, h3⟩ := hm
        exact ⟨hj, h2, h3⟩
      · simp at h
    · rintro ⟨hi, h2, h3⟩
      exact Or.inl ⟨i, hi, checkpoint_mem_iterEvents.mpr ⟨rfl, h2, h3⟩⟩
  · rw [mem_trainEvents hb hbn]
    constructor
    · rintro (⟨j, hj, hm⟩ | h)
      · exact absurd hm finalSave_not_mem_iterEvents
      · simpa using h
    · rintro rfl
      exact Or.inr rfl

/-- Witness for C5 at a one-item dataset with batch size 1, iteration 5000
and the corresponding concrete paths. -/
theorem c5_witness :
    (Event.checkpoint 5000 ("weights/ssd_iter_new5000.pth") ∈
        trainEvents defaultArgs 1 zeroLosses ↔
      5000 < max_iter ∧ 5000 % 5000 = 0 ∧
        ("weights/ssd_iter_new5000.pth" : String) =
          "weights/ssd_iter_new" ++ toString 5000 ++ ".pth")
    ∧ (trainEvents defaultArgs 1 zeroLosses).countP isFinalSave = 1
    ∧ (Event.finalSave ("weights/v2.pth") ∈
        trainEvents defaultArgs 1 zeroLosses ↔
        ("weights/v2.pth" : String) = finalPath defaultArgs) :=
  c5_checkpoint_cadence defaultArgs 1 zeroLosses 5000
    ("weights/ssd_iter_new5000.pth") ("weights/v2.pth") (by decide)

theorem runIter_epoch_size_zero (args : Args) (n : Nat)
    (losses : Nat → ℚ × ℚ) (hE : epoch_size n args.batch_size = 0)
    (k : Nat) :
    runIter args n losses k = Except.ok (initState args) ∨
      runIter args n losses k = Except.error Fault.zeroDivision := by
  induction k with
  | zero => exact Or.inl rfl
  | succ k ih =>
    right
    rcases ih with h | h
    · show (runIter args n losses k).bind _ = _
      rw [h]
      show trainStep args n losses k (initState args) = _
      unfold trainStep
      rw [if_pos hE]
    · show (runIter args n losses k).bind _ = _
      rw [h]
      rfl

/-- C6: over a non-empty dataset the per-step batch fetch never raises an
exhaustion fault: no prefix of the training loop ends in the
iterator-exhausted fault.  (The only fault a run can produce is the
zero-division one, raised by the boundary test before any fetch when the
epoch size is zero.) -/
theorem c6_fetch_never_exhausted (args : Args) (n : Nat)
    (losses : Nat → ℚ × ℚ) (k : Nat) (hn : 1 ≤ n) :
    runIter args n losses k ≠ Except.error Fault.iteratorExhausted := by
  have hn' : 0 < n := hn
  by_cases hE : epoch_size n args.batch_size = 0
  · rcases runIter_epoch_size_zero args n losses hE k with h | h <;>
      rw [h] <;> simp
  · obtain ⟨hb, hbn⟩ :=
      batch_size_bounds_of_epoch_size_pos (Nat.pos_of_ne_zero hE)
    rw [runIter_ok args n losses hb hbn k]
    simp

/-- Witness for C6 at a one-item dataset, batch size 1, three iterations. -/
theorem c6_witness :
    runIter defaultArgs 1 zeroLosses 3 ≠
      Except.error Fault.iteratorExhausted :=
  c6_fetch_never_exhausted defaultArgs 1 zeroLosses 3 (by decide)

/-- C8: with visualization enabled, at every epoch-boundary iteration `i`
of the loop exactly one visdom logging point for `i` is emitted; its series
list is exactly the 6 values (current localization loss, current confidence
loss, their sum, cumulative localization loss, cumulative confidence loss,
their sum), where the cumulative values at the boundary equal the full sums
of the per-iteration losses over all iterations before `i`. -/
theorem c8_visdom_point_shape (args : Args) (n : Nat)
    (losses : Nat → ℚ × ℚ) (i : Nat)
    (hE : 1 ≤ epoch_size n args.batch_size) (hv : args.visdom = true)
    (hi : i < max_iter) (hmod : i % epoch_size n args.batch_size = 0) :
    (trainEvents args n losses).countP (isVisdomAt i) = 1
    ∧ (∀ ep l, Event.visdomPoint i ep l ∈ trainEvents args n losses →
        ep = epochAt (epoch_size n args.batch_size) i + 1 ∧
        l = [epochSum (epoch_size n args.batch_size) (lossL losses) i,
             epochSum (epoch_size n args.batch_size) (lossC losses) i,
             epochSum (epoch_size n args.batch_size) (lossL losses) i +
               epochSum (epoch_size n args.batch_size) (lossC losses) i,
             cumSum (epoch_size n args.batch_size) (lossL losses) i +
               epochSum (epoch_size n args.batch_size) (lossL losses) i,
             cumSum (epoch_size n args.batch_size) (lossC losses) i +
               epochSum (epoch_size n args.batch_size) (lossC losses) i,
             cumSum (epoch_size n args.batch_size) (lossL losses) i +
               epochSum (epoch_size n args.batch_size) (lossL losses) i +
               (cumSum (epoch_size n args.batch_size) (lossC losses) i +
                 epochSum (epoch_size n args.batch_size) (lossC losses) i)])
    ∧ cumSum (epoch_size n args.batch_size) (lossL losses) i +
        epochSum (epoch_size n args.batch_size) (lossL losses) i =
        ∑ j ∈ Finset.range i, lossL losses j
    ∧ cumSum (epoch_size n args.batch_size) (lossC losses) i +
        epochSum (epoch_size n args.batch_size) (lossC losses) i =
        ∑ j ∈ Finset.range i, lossC losses j := by
  obtain ⟨hb, hbn⟩ := batch_size_bounds_of_epoch_size_pos hE
  refine ⟨countP_isVisdomAt_trainEvents args n losses i hb hbn hi hmod hv,
    ?_, cumSum_boundary_add_epochSum hE hmod (lossL losses),
    cumSum_boundary_add_epochSum hE hmod (lossC losses)⟩
  intro ep l h
  rw [mem_trainEvents hb hbn] at h
  rcases h with ⟨j, hj, hm⟩ | h
  · rw [visdomPoint_mem_iterEvents] at hm
    obtain ⟨rfl, -, -, h4, h5⟩ := hm
    exact ⟨h4, h5⟩
  · simp at h

/-- Witness for C8 at a one-item dataset, batch size 1, boundary
iteration 0. -/
theorem c8_witness :
    (trainEvents defaultArgs 1 zeroLosses).countP (isVisdomAt 0) = 1 :=
  (c8_visdom_point_shape defaultArgs 1 zeroLosses 0 (by decide) rfl
    (by decide) (by decide)).1

/-- C3: with epoch size `E` at least 1, consider the `k`-th epoch boundary
of the loop (`k` counted from 1, reached during iteration `(k-1)*E`).
Right after that iteration the cumulative loss counters hold exactly the
sum of the per-iteration losses of the first `k-1` completed epochs, i.e.
of all iterations before `(k-1)*E`: the boundary rolled the pre-reset epoch
counters in before zeroing them, so the epoch that starts at the boundary
is not yet included, and at the first boundary (iteration 0, `k = 1`) the
amount added is zero. -/
theorem c3_cumulative_counters_lag (args : Args) (n : Nat)
    (losses : Nat → ℚ × ℚ) (k : Nat)
    (hE : 1 ≤ epoch_size n args.batch_size) (hk : 1 ≤ k)
    (hle : (k - 1) * epoch_size n args.batch_size + 1 ≤ max_iter) :
    ∃ s, runIter args n losses
        ((k - 1) * epoch_size n args.batch_size + 1) = Except.ok s ∧
      s.cum_loc_loss =
        ∑ j ∈ Finset.range ((k - 1) * epoch_size n args.batch_size),
          lossL losses j ∧
      s.cum_conf_loss =
        ∑ j ∈ Finset.range ((k - 1) * epoch_size n args.batch_size),
          lossC losses j := by
  obtain ⟨hb, hbn⟩ := batch_size_bounds_of_epoch_size_pos hE
  refine ⟨closedState args n losses _, runIter_ok args n losses hb hbn _,
    ?_, ?_⟩ <;>
  · show cumSum (epoch_size n args.batch_size) _ _ = _
    unfold cumSum
    rw [lastBoundary_mul_succ hE]

/-- Witness for C3 at a one-item dataset, batch size 1, first boundary
(`k = 1`): the cumulative counters right after iteration 0 are the empty
sums. -/
theorem c3_witness :
    ∃ s, runIter defaultArgs 1 zeroLosses
        ((1 - 1) * epoch_size 1 defaultArgs.batch_size + 1) =
          Except.ok s ∧
      s.cum_loc_loss =
        ∑ j ∈ Finset.range ((1 - 1) * epoch_size 1 defaultArgs.batch_size),
          lossL zeroLosses j ∧
      s.cum_conf_loss =
        ∑ j ∈ Finset.range ((1 - 1) * epoch_size 1 defaultArgs.batch_size),
          lossC zeroLosses j :=
  c3_cumulative_counters_lag defaultArgs 1 zeroLosses 1 (by decide)
    (by decide) (by decide)

/-- C1 under amendment: with epoch size `E` at least 1, a learning-rate
change event occurs at iteration `i` exactly when `i` is one of the
milestones 80000, 100000, 120000, `i` is divisible by `E`, and `i` is
actually executed (`i < 120000`, which rules the milestone 120000 out);
such an event carries step index one more than the number of milestones
already passed on epoch boundaries, and the new rate `lr * gamma ^
step_index`. -/
theorem c1_lr_change_characterization (args : Args) (n : Nat)
    (losses : Nat → ℚ × ℚ) (i si : Nat) (lr : ℚ)
    (hE : 1 ≤ epoch_size n args.batch_size) :
    Event.lrChange i si lr ∈ trainEvents args n losses ↔
      i ∈ stepvalues ∧ i % epoch_size n args.batch_size = 0 ∧
        i < max_iter ∧
        si = stepIndexAt (epoch_size n args.batch_size) i + 1 ∧
        lr = args.lr * args.gamma ^
          (stepIndexAt (epoch_size n args.batch_size) i + 1) := by
  obtain ⟨hb, hbn⟩ := batch_size_bounds_of_epoch_size_pos hE
  rw [mem_trainEvents hb hbn]
  constructor
  · rintro (⟨j, hj, hm⟩ | h)
    · rw [lrChange_mem_iterEvents] at hm
      obtain ⟨rfl, h1, h2, h3, h4⟩ := hm
      exact ⟨h2, h1, hj, h3, h4⟩
    · simp at h
  · rintro ⟨h1, h2, h3, h4, h5⟩
    exact Or.inl ⟨i, h3, lrChange_mem_iterEvents.mpr ⟨rfl, h2, h1, h4, h5⟩⟩

/-- Witness for C1 (amended) at a one-item dataset, batch size 1,
iteration 120000. -/
theorem c1_witness :
    Event.lrChange 120000 1 0 ∈ trainEvents defaultArgs 1 zeroLosses ↔
      120000 ∈ stepvalues ∧
        120000 % epoch_size 1 defaultArgs.batch_size = 0 ∧
        120000 < max_iter ∧
        1 = stepIndexAt (epoch_size 1 defaultArgs.batch_size) 120000 + 1 ∧
        (0 : ℚ) = defaultArgs.lr * defaultArgs.gamma ^
          (stepIndexAt (epoch_size 1 defaultArgs.batch_size) 120000 + 1) :=
  c1_lr_change_characterization defaultArgs 1 zeroLosses 120000 1 0
    (by decide)

/-- C1 as stated is false: at batch size 1 over a one-item dataset (epoch
size 1, so every iteration is an epoch boundary) the set of iterations with
a learning-rate change is not the milestone set, because the loop iterates
over 0, ..., 119999 and therefore never reaches the milestone 120000. -/
theorem c1_counterexample :
    ¬ (∀ i : Nat,
        (∃ si lr, Event.lrChange i si lr ∈
          trainEvents defaultArgs 1 zeroLosses) ↔ i ∈ stepvalues) := by
  intro h
  obtain ⟨si, lr, hmem⟩ := (h 120000).mpr (by decide)
  have hb : 1 ≤ defaultArgs.batch_size := by decide
  have hbn : defaultArgs.batch_size ≤ 1 := by decide
  rw [mem_trainEvents hb hbn] at hmem
  rcases hmem with ⟨j, hj, hm⟩ | h2
  · rw [lrChange_mem_iterEvents] at hm
    obtain ⟨heq, -⟩ := hm
    subst heq
    exact absurd hj (by decide)
  · simp at h2

end SSDTrain
